import Mathlib

/-!
# Verification of `randrest` (RandRest.ipynb)

Shallow embedding of the Python function

```python
def randrest(pool, n, repeat=False, balance=False, maxit=100000):
    if not repeat and not balance:
        samples = np.random.choice(pool, n+1)
    else:
        check = True
        stop = 1
        while check:
            samples = np.random.choice(pool, n+1)
            if repeat:
                repcheck = True
                for i in np.arange(1, repeat+1):
                    repcheck *= samples[i-1:-repeat+i-2] == samples[i:-repeat+i-1]
            else:
                repcheck = False
            if balance:
                values, counts = np.unique(samples[:-1], return_counts=True)
                balcheck = np.any(counts < n/np.size(pool)-balance) or np.any(counts > n/np.size(pool)+balance)
            else:
                balcheck = False
            check = np.any(repcheck) or balcheck
            if check and stop == maxit:
                raise StopIteration(...)
            stop += 1
    values, counts = np.unique(samples[:-1], return_counts=True)
    return samples[:-1], values, counts
```

Modelling decisions:
* Pool values (floats/ints) are modelled as rationals `ℚ`.
* Randomness: the successive candidates produced by `np.random.choice(pool, n+1)`
  are an oracle `cand : ℕ → List ℚ`; the contract of `np.random.choice`
  (each candidate has length `n+1` and elements drawn from `pool`) is carried
  as a hypothesis where a theorem needs it.
* Python truthiness: the arguments `repeat` and `balance` default to `False`,
  and the code tests them with `if not repeat`/`if repeat`/`if balance`.
  Hence `repeat = 0` and `balance = 0` behave exactly like `False`
  (constraint inactive).  We embed `repeat : ℕ` and `balance : ℚ`, with `0`
  meaning "not set / falsy"; a negative `balance` is truthy in Python and is
  likewise active (`≠ 0`) here.
* `np.unique(a, return_counts=True)` returns the distinct values of `a` in
  ascending order, with their multiplicities, embedded as `npUnique`.
* The slice expressions of the repeat check: with `L = len(samples) = n+1`,
  `samples[i-1:-repeat+i-2]` covers indices `i-1 .. L-(repeat-i+2)-1` and
  `samples[i:-repeat+i-1]` covers `i .. L-(repeat-i+1)-1`; both slices have
  length `L-1-repeat` independently of `i`, and entry `j` of the elementwise
  numpy product over `i = 1..repeat` is
  `∀ i ∈ [1..repeat], samples[j+i-1] == samples[j+i]`.
  So `np.any(repcheck)` holds iff some window of `repeat+1` consecutive equal
  elements starts at a position `j < L-1-repeat`; this is `repcheckAny` below.
  When the slices are empty (`n ≤ repeat`) the product is an empty array and
  `np.any` gives `False`, matching `List.range 0` here.
* The `while` loop, for `maxit ≥ 1`, raises `StopIteration` at the `maxit`-th
  failing candidate (`stop` counts `1, 2, ...` and the raise fires when
  `check ∧ stop == maxit`); so the loop runs at most `maxit` iterations and is
  embedded with fuel `maxit - 1` remaining retries after the first draw.
  (For `maxit ≤ 0` the Python loop would redraw unboundedly — never raising —
  which is outside this bounded model; no theorem below relies on the loop's
  value when `maxit = 0`.)
-/

/-- A stream of candidate draws: `cand k` is the `k`-th array produced by
`np.random.choice(pool, n+1)` during one call. -/
abbrev Cand := ℕ → List ℚ

/-- The only exception `randrest` itself raises:
`StopIteration("Maximum iteration [maxit] reached. ...")`. -/
inductive RErr where
  | stopIteration
  deriving DecidableEq, Repr

/-- Embeds `np.unique(l, return_counts=True)`: distinct values in ascending order,
paired with their multiplicities in `l`. -/
def npUnique (l : List ℚ) : List ℚ × List ℕ :=
  let vals := List.insertionSort (· ≤ ·) l.dedup
  (vals, vals.map fun v => l.count v)

/-- Embeds `np.any(repcheck)` for the repeat check of `randrest` (see the header
comment for the index arithmetic of the slices): some window of `r+1` equal
consecutive elements starts at a position `j < len(samples) - 1 - r`. -/
def repcheckAny (samples : List ℚ) (r : ℕ) : Bool :=
  (List.range (samples.length - 1 - r)).any fun j =>
    (List.range r).all fun i => decide (samples.getD (j + i) 0 = samples.getD (j + i + 1) 0)

/-- The balance check of `randrest`:
`np.any(counts < n/size(pool) - balance) or np.any(counts > n/size(pool) + balance)`
where `values, counts = np.unique(samples[:-1], return_counts=True)`.
Only values present in `samples[:-1]` contribute a count. -/
def balcheck (samples : List ℚ) (poolSize n : ℕ) (balance : ℚ) : Bool :=
  let counts := (npUnique samples.dropLast).2
  counts.any (fun c => decide ((c : ℚ) < (n : ℚ) / (poolSize : ℚ) - balance)) ||
  counts.any (fun c => decide ((c : ℚ) > (n : ℚ) / (poolSize : ℚ) + balance))

/-- One iteration's acceptance test: `check = np.any(repcheck) or balcheck`,
with `repcheck`/`balcheck` computed only when the respective argument is
truthy (Python: `if repeat:` / `if balance:`). -/
def rcheck (samples : List ℚ) (pool : List ℚ) (n rep : ℕ) (bal : ℚ) : Bool :=
  (if rep ≠ 0 then repcheckAny samples rep else false) ||
  (if bal ≠ 0 then balcheck samples pool.length n bal else false)

/-- The `while check:` loop of `randrest`: draw candidate `k`; if it passes,
keep it; otherwise raise `StopIteration` when no retries remain (Python:
`check and stop == maxit`), else retry with the next candidate. -/
def randrestLoop (pool : List ℚ) (n rep : ℕ) (bal : ℚ) (cand : Cand) :
    ℕ → ℕ → Except RErr (List ℚ)
  | k, fuel =>
    if rcheck (cand k) pool n rep bal then
      match fuel with
      | 0 => .error .stopIteration
      | fuel' + 1 => randrestLoop pool n rep bal cand (k + 1) fuel'
    else
      .ok (cand k)

/-- Embeds `randrest(pool, n, repeat, balance, maxit)`.  `rep = 0` and `bal = 0`
stand for the falsy Python arguments `False`/`0`/`0.0`.  On success the
Python function returns `samples[:-1], values, counts` with
`values, counts = np.unique(samples[:-1], return_counts=True)`. -/
def randrest (cand : Cand) (pool : List ℚ) (n rep : ℕ) (bal : ℚ) (maxit : ℕ) :
    Except RErr (List ℚ × List ℚ × List ℕ) :=
  let samplesE : Except RErr (List ℚ) :=
    if rep = 0 ∧ bal = 0 then .ok (cand 0)
    else randrestLoop pool n rep bal cand 0 (maxit - 1)
  samplesE.map fun samples =>
    ((samples.dropLast, (npUnique samples.dropLast).1, (npUnique samples.dropLast).2))

example : npUnique [1, 1, 2, 2] = ([1, 2], [2, 2]) := by decide

example : repcheckAny [1, 1, 1, 2, 3, 1] 2 = true := by decide

example : repcheckAny [1, 1, 2, 1, 1, 2] 2 = false := by decide

/-- Equality in the result monad of `randrest` is decidable (used to settle
concrete runs by computation). -/
instance : DecidableEq (Except RErr (List ℚ × List ℚ × List ℕ)) := fun a b =>
  match a, b with
  | .ok x, .ok y => decidable_of_iff (x = y) (by simp)
  | .error x, .error y => decidable_of_iff (x = y) (by simp)
  | .ok _, .error _ => isFalse (by simp)
  | .error _, .ok _ => isFalse (by simp)

example :
    randrest (fun _ => ([1, 1, 2, 2, 1] : List ℚ)) [1, 2, 3] 4 0 1 5 =
      .ok ([1, 1, 2, 2], [1, 2], [2, 2]) := by
  norm_num [randrest, randrestLoop, rcheck, balcheck, npUnique,
    List.insertionSort, List.orderedInsert, List.dedup, List.pwFilter, Except.map]

/-! ## Unfolding lemmas -/

theorem randrestLoop_zero (pool : List ℚ) (n rep : ℕ) (bal : ℚ) (cand : Cand) (k : ℕ) :
    randrestLoop pool n rep bal cand k 0 =
      if rcheck (cand k) pool n rep bal then .error .stopIteration else .ok (cand k) := by
  rw [randrestLoop]

theorem randrestLoop_succ (pool : List ℚ) (n rep : ℕ) (bal : ℚ) (cand : Cand) (k fuel : ℕ) :
    randrestLoop pool n rep bal cand k (fuel + 1) =
      if rcheck (cand k) pool n rep bal then randrestLoop pool n rep bal cand (k + 1) fuel
      else .ok (cand k) := by
  rw [randrestLoop]

theorem randrest_def (cand : Cand) (pool : List ℚ) (n rep : ℕ) (bal : ℚ) (maxit : ℕ) :
    randrest cand pool n rep bal maxit =
      (if rep = 0 ∧ bal = 0 then Except.ok (cand 0)
       else randrestLoop pool n rep bal cand 0 (maxit - 1)).map
        fun samples =>
          (samples.dropLast, (npUnique samples.dropLast).1, (npUnique samples.dropLast).2) :=
  rfl

/-- Full-run dichotomy for the retry loop: either some candidate in the fuel
window passes the check — the loop returns it and every earlier candidate
failed — or every candidate in the window fails and the loop raises
`StopIteration`. -/
theorem randrestLoop_cases (pool : List ℚ) (n rep : ℕ) (bal : ℚ) (cand : Cand) :
    ∀ fuel k : ℕ,
      (∃ j, k ≤ j ∧ j ≤ k + fuel ∧ rcheck (cand j) pool n rep bal = false ∧
        randrestLoop pool n rep bal cand k fuel = .ok (cand j) ∧
        ∀ m, k ≤ m → m < j → rcheck (cand m) pool n rep bal = true) ∨
      ((∀ m, k ≤ m → m ≤ k + fuel → rcheck (cand m) pool n rep bal = true) ∧
        randrestLoop pool n rep bal cand k fuel = .error .stopIteration) := by
  intro fuel
  induction fuel with
  | zero =>
    intro k
    by_cases h : rcheck (cand k) pool n rep bal = true
    · right
      refine ⟨fun m hm hm' => ?_, by rw [randrestLoop_zero, h]; rfl⟩
      have hmk : m = k := le_antisymm (by omega) hm
      rw [hmk]; exact h
    · left
      refine ⟨k, le_refl k, by omega, by simpa using h, ?_, fun m hm hm' => by omega⟩
      rw [randrestLoop_zero]
      simp [h]
  | succ fuel ih =>
    intro k
    by_cases h : rcheck (cand k) pool n rep bal = true
    · rcases ih (k + 1) with ⟨j, h1, h2, h3, h4, h5⟩ | ⟨h1, h2⟩
      · left
        refine ⟨j, by omega, by omega, h3, by rw [randrestLoop_succ, h]; simpa using h4, ?_⟩
        intro m hm hmj
        by_cases hmk : m = k
        · rw [hmk]; exact h
        · exact h5 m (by omega) hmj
      · right
        refine ⟨fun m hm hm' => ?_, by rw [randrestLoop_succ, h]; simpa using h2⟩
        by_cases hmk : m = k
        · rw [hmk]; exact h
        · exact h1 m (by omega) (by omega)
    · left
      refine ⟨k, le_refl k, by omega, by simpa using h, ?_, fun m hm hm' => by omega⟩
      rw [randrestLoop_succ]
      simp [h]

/-! ## Helper lemmas about list indexing -/

theorem getD_take_eq (l : List ℚ) : ∀ n i : ℕ, i < n → (l.take n).getD i 0 = l.getD i 0 := by
  induction l with
  | nil => intro n i _; simp
  | cons a l ih =>
    intro n i h
    cases n with
    | zero => omega
    | succ n =>
      cases i with
      | zero => simp
      | succ i => simpa using ih n i (by omega)

theorem getD_dropLast_eq (l : List ℚ) (i : ℕ) (h : i + 1 < l.length) :
    l.dropLast.getD i 0 = l.getD i 0 := by
  rw [List.dropLast_eq_take]
  exact getD_take_eq l (l.length - 1) i (by omega)

/-! ## Inversion lemmas for the acceptance checks -/

/-- If the repeat check passes (`np.any(repcheck)` is false), every window of
`r+1` consecutive positions lying inside the first `length - 1` elements
contains an adjacent unequal pair. -/
theorem repcheckAny_false_adjacent {samples : List ℚ} {r : ℕ}
    (h : repcheckAny samples r = false) {j : ℕ} (hj : j + r + 2 ≤ samples.length) :
    ∃ i, i < r ∧ samples.getD (j + i) 0 ≠ samples.getD (j + i + 1) 0 := by
  unfold repcheckAny at h
  rw [List.any_eq_false] at h
  have hall := h j (List.mem_range.mpr (by omega))
  simp only [Bool.not_eq_true, List.all_eq_false, List.mem_range] at hall
  rcases hall with ⟨i, hi, hne⟩
  exact ⟨i, hi, by simpa using hne⟩

/-- If the balance check passes, every value present in `samples[:-1]` has its
count within the tolerance band `[n/|pool| - balance, n/|pool| + balance]`. -/
theorem balcheck_false_present {samples : List ℚ} {ps n : ℕ} {bal : ℚ}
    (h : balcheck samples ps n bal = false) :
    ∀ v ∈ samples.dropLast,
      (n : ℚ) / (ps : ℚ) - bal ≤ (samples.dropLast.count v : ℚ) ∧
      (samples.dropLast.count v : ℚ) ≤ (n : ℚ) / (ps : ℚ) + bal := by
  intro v hv
  unfold balcheck at h
  rw [Bool.or_eq_false_iff] at h
  obtain ⟨h1, h2⟩ := h
  rw [List.any_eq_false] at h1 h2
  have hvmem : samples.dropLast.count v ∈ (npUnique samples.dropLast).2 := by
    unfold npUnique
    refine List.mem_map.mpr ⟨v, ?_, rfl⟩
    exact ((List.perm_insertionSort _ _).mem_iff).mpr (List.mem_dedup.mpr hv)
  refine ⟨?_, ?_⟩
  · have := h1 _ hvmem
    simp only [decide_eq_true_eq] at this
    exact not_lt.mp this
  · have := h2 _ hvmem
    simp only [decide_eq_true_eq] at this
    exact not_lt.mp this

theorem rcheck_false_rep {samples pool : List ℚ} {n rep : ℕ} {bal : ℚ} (hrep : rep ≠ 0)
    (h : rcheck samples pool n rep bal = false) : repcheckAny samples rep = false := by
  unfold rcheck at h
  rw [Bool.or_eq_false_iff] at h
  simpa [hrep] using h.1

theorem rcheck_false_bal {samples pool : List ℚ} {n rep : ℕ} {bal : ℚ} (hbal : bal ≠ 0)
    (h : rcheck samples pool n rep bal = false) :
    balcheck samples pool.length n bal = false := by
  unfold rcheck at h
  rw [Bool.or_eq_false_iff] at h
  simpa [hbal] using h.2

theorem list_any_congr {l : List ℕ} {p q : ℕ → Bool} (h : ∀ x ∈ l, p x = q x) :
    l.any p = l.any q := by
  induction l with
  | nil => rfl
  | cons a l ih =>
    simp only [List.any_cons, h a (by simp), ih fun x hx => h x (by simp [hx])]

theorem list_all_congr {l : List ℕ} {p q : ℕ → Bool} (h : ∀ x ∈ l, p x = q x) :
    l.all p = l.all q := by
  induction l with
  | nil => rfl
  | cons a l ih =>
    simp only [List.all_cons, h a (by simp), ih fun x hx => h x (by simp [hx])]

/-- The repeat check never reads the dummy last element: two candidates of
length `n+1` that agree on their first `n` entries get the same verdict. -/
theorem repcheckAny_congr {samples samples' : List ℚ} {n : ℕ} (r : ℕ)
    (hlen : samples.length = n + 1) (hlen' : samples'.length = n + 1)
    (htake : samples.take n = samples'.take n) :
    repcheckAny samples r = repcheckAny samples' r := by
  have hidx : ∀ idx, idx < n → samples.getD idx 0 = samples'.getD idx 0 := by
    intro idx hidx
    rw [← getD_take_eq samples n idx hidx, ← getD_take_eq samples' n idx hidx, htake]
  unfold repcheckAny
  rw [hlen, hlen']
  refine list_any_congr fun j hj => list_all_congr fun i hi => ?_
  rw [List.mem_range] at hj hi
  rw [hidx (j + i) (by omega), hidx (j + i + 1) (by omega)]

/-- The balance check and the returned data only read `samples[:-1]`:
two candidates of length `n+1` that agree on their first `n` entries have the
same `samples[:-1]`. -/
theorem dropLast_eq_of_take_eq {samples samples' : List ℚ} {n : ℕ}
    (hlen : samples.length = n + 1) (hlen' : samples'.length = n + 1)
    (htake : samples.take n = samples'.take n) :
    samples.dropLast = samples'.dropLast := by
  rw [List.dropLast_eq_take, List.dropLast_eq_take, hlen, hlen']
  simpa using htake

/-- The whole acceptance check never reads the dummy last element. -/
theorem rcheck_congr_take {samples samples' pool : List ℚ} {n rep : ℕ} {bal : ℚ}
    (hlen : samples.length = n + 1) (hlen' : samples'.length = n + 1)
    (htake : samples.take n = samples'.take n) :
    rcheck samples pool n rep bal = rcheck samples' pool n rep bal := by
  unfold rcheck
  rw [repcheckAny_congr rep hlen hlen' htake]
  unfold balcheck
  rw [dropLast_eq_of_take_eq hlen hlen' htake]

/-- The loop's value depends only on the candidates inside its fuel window. -/
theorem randrestLoop_agree (pool : List ℚ) (n rep : ℕ) (bal : ℚ) (cand cand' : Cand) :
    ∀ fuel k : ℕ, (∀ j, k ≤ j → j ≤ k + fuel → cand' j = cand j) →
      randrestLoop pool n rep bal cand' k fuel = randrestLoop pool n rep bal cand k fuel := by
  intro fuel
  induction fuel with
  | zero =>
    intro k hag
    rw [randrestLoop_zero, randrestLoop_zero, hag k le_rfl (by omega)]
  | succ fuel ih =>
    intro k hag
    rw [randrestLoop_succ, randrestLoop_succ, hag k le_rfl (by omega)]
    by_cases h : rcheck (cand k) pool n rep bal = true
    · rw [if_pos h, if_pos h]
      exact ih (k + 1) fun j h1 h2 => hag j (by omega) (by omega)
    · rw [if_neg h, if_neg h]

/-- Two candidate streams whose corresponding candidates always receive the
same acceptance verdict drive the loop to the same outcome: both raise, or
both accept the candidate of the same attempt index. -/
theorem randrestLoop_rel (pool : List ℚ) (n rep : ℕ) (bal : ℚ) (cand cand' : Cand)
    (hchk : ∀ m, rcheck (cand' m) pool n rep bal = rcheck (cand m) pool n rep bal) :
    ∀ fuel k : ℕ,
      (randrestLoop pool n rep bal cand k fuel = .error .stopIteration ∧
        randrestLoop pool n rep bal cand' k fuel = .error .stopIteration) ∨
      (∃ j, randrestLoop pool n rep bal cand k fuel = .ok (cand j) ∧
        randrestLoop pool n rep bal cand' k fuel = .ok (cand' j)) := by
  intro fuel
  induction fuel with
  | zero =>
    intro k
    by_cases h : rcheck (cand k) pool n rep bal = true
    · left
      rw [randrestLoop_zero, randrestLoop_zero, hchk, h]
      simp
    · right
      refine ⟨k, ?_, ?_⟩
      · rw [randrestLoop_zero, if_neg h]
      · rw [randrestLoop_zero, hchk, if_neg h]
  | succ fuel ih =>
    intro k
    by_cases h : rcheck (cand k) pool n rep bal = true
    · rcases ih (k + 1) with ⟨h1, h2⟩ | ⟨j, h1, h2⟩
      · left
        constructor
        · rw [randrestLoop_succ, if_pos h]; exact h1
        · rw [randrestLoop_succ, hchk, if_pos h]; exact h2
      · right
        refine ⟨j, ?_, ?_⟩
        · rw [randrestLoop_succ, if_pos h]; exact h1
        · rw [randrestLoop_succ, hchk, if_pos h]; exact h2
    · right
      refine ⟨k, ?_, ?_⟩
      · rw [randrestLoop_succ, if_neg h]
      · rw [randrestLoop_succ, hchk, if_neg h]

/-- Successful-run inversion: a successful `randrest` call returns
`samples[:-1]` together with its `np.unique` values and counts, where
`samples` is one of the drawn candidates; when some constraint is active,
that candidate passed the acceptance check. -/
theorem randrest_ok_inv {cand : Cand} {pool : List ℚ} {n rep : ℕ} {bal : ℚ} {maxit : ℕ}
    {s vals : List ℚ} {counts : List ℕ}
    (h : randrest cand pool n rep bal maxit = .ok (s, vals, counts)) :
    ∃ j, s = (cand j).dropLast ∧ vals = (npUnique (cand j).dropLast).1 ∧
      counts = (npUnique (cand j).dropLast).2 ∧
      (¬(rep = 0 ∧ bal = 0) → rcheck (cand j) pool n rep bal = false) := by
  rw [randrest_def] at h
  by_cases hc : rep = 0 ∧ bal = 0
  · rw [if_pos hc] at h
    simp only [Except.map, Except.ok.injEq, Prod.mk.injEq] at h
    exact ⟨0, h.1.symm, h.2.1.symm, h.2.2.symm, fun hn => absurd hc hn⟩
  · rw [if_neg hc] at h
    rcases randrestLoop_cases pool n rep bal cand (maxit - 1) 0 with
      ⟨j, _, _, h3, h4, _⟩ | ⟨_, h2⟩
    · rw [h4] at h
      simp only [Except.map, Except.ok.injEq, Prod.mk.injEq] at h
      exact ⟨j, h.1.symm, h.2.1.symm, h.2.2.symm, fun _ => h3⟩
    · rw [h2] at h
      simp [Except.map] at h

/-- A candidate that passes the acceptance check is returned immediately,
whatever fuel remains. -/
theorem randrestLoop_first_ok {pool : List ℚ} {n rep : ℕ} {bal : ℚ} {cand : Cand}
    {k fuel : ℕ} (h : rcheck (cand k) pool n rep bal = false) :
    randrestLoop pool n rep bal cand k fuel = .ok (cand k) := by
  cases fuel with
  | zero => rw [randrestLoop_zero, if_neg (by simp [h])]
  | succ f => rw [randrestLoop_succ, if_neg (by simp [h])]

/-- Core of the repeat invariant (shared): when `maxRepeat = rep` is active
(`rep ≠ 0`) and each candidate has length `n+1`, a successfully returned
sequence contains no window of `rep+1` equal consecutive elements. -/
theorem accepted_no_run {cand : Cand} {pool : List ℚ} {n rep : ℕ} {bal : ℚ} {maxit : ℕ}
    (hrep : rep ≠ 0) (hlen : ∀ k, (cand k).length = n + 1)
    {s vals : List ℚ} {counts : List ℕ}
    (h : randrest cand pool n rep bal maxit = .ok (s, vals, counts)) :
    ¬∃ j, j + rep < s.length ∧ ∀ i, i ≤ rep → s.getD (j + i) 0 = s.getD j 0 := by
  rintro ⟨j, hj, hrun⟩
  rcases randrest_ok_inv h with ⟨m, hs, -, -, hchk⟩
  have hchk' := rcheck_false_rep hrep (hchk (by tauto))
  have hslen : s.length = n := by
    rw [hs, List.length_dropLast, hlen m]; omega
  rw [hslen] at hj
  rcases repcheckAny_false_adjacent hchk' (j := j) (by rw [hlen m]; omega) with ⟨i, hi, hne⟩
  apply hne
  have e1 : (cand m).getD (j + i) 0 = s.getD (j + i) 0 := by
    rw [hs]
    exact (getD_dropLast_eq _ _ (by rw [hlen m]; omega)).symm
  have e2 : (cand m).getD (j + i + 1) 0 = s.getD (j + i + 1) 0 := by
    rw [hs]
    exact (getD_dropLast_eq _ _ (by rw [hlen m]; omega)).symm
  rw [e1, e2, hrun i (by omega)]
  have := hrun (i + 1) (by omega)
  rw [show j + i + 1 = j + (i + 1) by omega, this]

/-- Core of the balance invariant (shared): when `balanceTolerance = bal` is
active (`bal ≠ 0`), every value present in a successfully returned sequence
has its count within `[n/|pool| - bal, n/|pool| + bal]`. -/
theorem accepted_balance_present {cand : Cand} {pool : List ℚ} {n rep : ℕ} {bal : ℚ}
    {maxit : ℕ} (hbal : bal ≠ 0) {s vals : List ℚ} {counts : List ℕ}
    (h : randrest cand pool n rep bal maxit = .ok (s, vals, counts)) :
    ∀ v ∈ s, (n : ℚ) / (pool.length : ℚ) - bal ≤ (s.count v : ℚ) ∧
      (s.count v : ℚ) ≤ (n : ℚ) / (pool.length : ℚ) + bal := by
  rcases randrest_ok_inv h with ⟨j, hs, -, -, hchk⟩
  have hb := rcheck_false_bal hbal (hchk (by tauto))
  rw [hs]
  exact balcheck_false_present hb

/-! ## The claims -/

/-- C7: when neither `maxRepeat` nor `balanceTolerance` is set (both falsy,
embedded as `0`), the call succeeds on the first candidate draw for every
pool, `n` and budget: the result is built from `cand 0` only and does not
mention `maxit`, so the retry loop is never entered and the iteration budget
is never consulted — even a budget that would otherwise be exhausted. -/
theorem C7_no_constraint_fast_path (cand : Cand) (pool : List ℚ) (n maxit : ℕ) :
    randrest cand pool n 0 0 maxit =
      .ok ((cand 0).dropLast, (npUnique (cand 0).dropLast).1,
        (npUnique (cand 0).dropLast).2) := by
  rw [randrest_def, if_pos ⟨rfl, rfl⟩]
  rfl

/-- C9: for `n = 0` — any pool, any constraint settings, any budget (even
`maxit = 0`) — the call returns the empty sequence with empty values and
counts.  The first candidate (the single dummy element) always passes the
check because `samples[:-1]` is empty, so no retry occurs and the budget is
never consulted; the result depends on no candidate beyond the first. -/
theorem C9_n_zero (cand : Cand) (pool : List ℚ) (rep : ℕ) (bal : ℚ) (maxit : ℕ)
    (hlen : (cand 0).length = 0 + 1) :
    randrest cand pool 0 rep bal maxit = .ok ([], [], []) := by
  have hdl : (cand 0).dropLast = [] := by
    rw [List.dropLast_eq_take, hlen]
    simp
  have hchk : rcheck (cand 0) pool 0 rep bal = false := by
    unfold rcheck repcheckAny balcheck npUnique
    rw [hlen, hdl]
    simp
  rw [randrest_def]
  by_cases hc : rep = 0 ∧ bal = 0
  · rw [if_pos hc]
    simp [Except.map, hdl, npUnique]
  · rw [if_neg hc, randrestLoop_first_ok hchk]
    simp [Except.map, hdl, npUnique]

/-- Witness for C9 at `pool = [5, 7]`, active constraints `maxRepeat = 2`,
`balanceTolerance = 1`, budget `3`. -/
theorem C9_n_zero_witness :
    randrest (fun _ => ([5] : List ℚ)) [5, 7] 0 2 1 3 = .ok ([], [], []) :=
  C9_n_zero (fun _ => [5]) [5, 7] 2 1 3 rfl

/-- C6: length invariant — whenever every drawn candidate has the
`np.random.choice(pool, n+1)` length `n+1` and the call returns successfully,
the returned sequence (`samples[:-1]`) has exactly `n` elements. -/
theorem C6_length (cand : Cand) (pool : List ℚ) (n rep : ℕ) (bal : ℚ) (maxit : ℕ)
    (hlen : ∀ k, (cand k).length = n + 1) (s vals : List ℚ) (counts : List ℕ)
    (h : randrest cand pool n rep bal maxit = .ok (s, vals, counts)) :
    s.length = n := by
  rcases randrest_ok_inv h with ⟨j, hs, -, -, -⟩
  rw [hs, List.length_dropLast, hlen j]; omega

/-- Witness for C6 at a concrete successful call. -/
theorem C6_length_witness : (([1] : List ℚ)).length = 1 :=
  C6_length (fun _ => [1, 1]) [1] 1 0 0 1 (fun _ => rfl) [1] [1] [1] (by decide)

/-- C4 (counterexample): a malformed configuration — here a non-positive
iteration budget, `maxit = 0` — is not rejected: no invalid-configuration
error is raised before drawing; the call succeeds and returns a sequence. -/
theorem C4_counterexample :
    randrest (fun _ => ([1, 1] : List ℚ)) [1] 1 0 0 0 = .ok ([1], [1], [1]) := by
  decide

/-- C4 (amended): `randrest` performs no configuration validation at all —
no invalid-configuration error exists (its only error is the `StopIteration`
of budget exhaustion), and a malformed configuration is not rejected before
drawing: with a non-positive budget (`maxit = 0`) and no active constraints
the call still draws a candidate and returns it successfully. -/
theorem C4_amended (cand : Cand) (pool : List ℚ) (n : ℕ) :
    (∀ e : RErr, e = .stopIteration) ∧
    randrest cand pool n 0 0 0 =
      .ok ((cand 0).dropLast, (npUnique (cand 0).dropLast).1,
        (npUnique (cand 0).dropLast).2) := by
  refine ⟨fun e => by cases e; rfl, ?_⟩
  rw [randrest_def, if_pos ⟨rfl, rfl⟩]
  rfl

/-- C3: repeat invariant — with an active `maxRepeat = rep` (a positive
integer) and candidates of the `np.random.choice` length `n+1`, every
successfully returned sequence contains no window of `rep+1` equal
consecutive elements at any position `j` (all windows lying inside the `n`
returned elements, those touching the first and the last element included). -/
theorem C3_repeat_invariant (cand : Cand) (pool : List ℚ) (n rep : ℕ) (bal : ℚ)
    (maxit : ℕ) (hrep : rep ≠ 0) (hlen : ∀ k, (cand k).length = n + 1)
    (s vals : List ℚ) (counts : List ℕ)
    (h : randrest cand pool n rep bal maxit = .ok (s, vals, counts)) :
    ¬∃ j, j + rep < s.length ∧ ∀ i, i ≤ rep → s.getD (j + i) 0 = s.getD j 0 :=
  accepted_no_run hrep hlen h

/-- Witness for C3 at a concrete successful call with `maxRepeat = 1`. -/
theorem C3_repeat_invariant_witness :
    ¬∃ j, j + 1 < (([1, 2] : List ℚ)).length ∧
      ∀ i, i ≤ 1 → (([1, 2] : List ℚ)).getD (j + i) 0 = (([1, 2] : List ℚ)).getD j 0 :=
  C3_repeat_invariant (fun _ => [1, 2, 1]) [1, 2] 2 1 0 1 (by decide) (fun _ => rfl)
    [1, 2] [1, 2] [1, 1] (by decide)

/-- C1 (counterexample): with `pool = [1, 2, 3]`, `n = 4` and active
`balanceTolerance = 1` — band `[4/3 - 1, 4/3 + 1]`, positive lower bound
`1/3` — the candidate `[1, 1, 2, 2, 1]` is accepted on the first draw and the
call returns `[1, 1, 2, 2]`, although the pool value `3` never occurs: its
count `0` lies below the positive lower bound, yet the candidate is not
rejected, because `np.unique` only lists values actually present. -/
theorem C1_counterexample :
    randrest (fun _ => ([1, 1, 2, 2, 1] : List ℚ)) [1, 2, 3] 4 0 1 5 =
      .ok ([1, 1, 2, 2], [1, 2], [2, 2]) ∧
    (0 : ℚ) < (4 : ℚ) / 3 - 1 ∧ (3 : ℚ) ∈ ([1, 2, 3] : List ℚ) ∧
    (([1, 1, 2, 2] : List ℚ)).count 3 = 0 := by
  refine ⟨?_, by norm_num, by norm_num, by decide⟩
  norm_num [randrest, randrestLoop, rcheck, balcheck, npUnique,
    List.insertionSort, List.orderedInsert, List.dedup, List.pwFilter, Except.map]

/-- C1 (amended): with an active balance constraint `bal ≠ 0`, every value
*present* in the returned sequence has its count within
`[n/|pool| - bal, n/|pool| + bal]`; pool values absent from the candidate are
not inspected by the check, so absence never causes a rejection even when the
lower bound is positive. -/
theorem C1_amended (cand : Cand) (pool : List ℚ) (n rep : ℕ) (bal : ℚ) (maxit : ℕ)
    (hbal : bal ≠ 0) (s vals : List ℚ) (counts : List ℕ)
    (h : randrest cand pool n rep bal maxit = .ok (s, vals, counts)) :
    ∀ v ∈ s, (n : ℚ) / (pool.length : ℚ) - bal ≤ (s.count v : ℚ) ∧
      (s.count v : ℚ) ≤ (n : ℚ) / (pool.length : ℚ) + bal :=
  accepted_balance_present hbal h

/-- Witness for C1 (amended) at the run of the counterexample. -/
theorem C1_amended_witness :
    (4 : ℚ) / 3 - 1 ≤ ((([1, 1, 2, 2] : List ℚ)).count 2 : ℚ) ∧
      ((([1, 1, 2, 2] : List ℚ)).count 2 : ℚ) ≤ (4 : ℚ) / 3 + 1 := by
  have h := C1_amended (fun _ => ([1, 1, 2, 2, 1] : List ℚ)) [1, 2, 3] 4 0 1 5
    (by norm_num) [1, 1, 2, 2] [1, 2] [2, 2]
    (by
      norm_num [randrest, randrestLoop, rcheck, balcheck, npUnique,
        List.insertionSort, List.orderedInsert, List.dedup, List.pwFilter, Except.map])
    2 (by norm_num)
  simpa using h

/-- C2 (counterexample): the two infeasible configurations named by the claim
have falsy constraint arguments — Python's `if not repeat and not balance`
treats `maxRepeat = 0` and `balanceTolerance = 0` exactly like `False` — so
no constraint is active: with budget `5` the call does not raise the
budget-exhaustion error but succeeds on the first draw.  First conjunct:
`maxRepeat = 0`, `pool = [1]`, `n = 2 > 1` (the returned `[1, 1]` repeats);
second: `balanceTolerance = 0`, `pool = [1, 2]`, `n = 1` not divisible by 2
(the returned count `1` differs from `n/|pool| = 1/2`). -/
theorem C2_counterexample :
    randrest (fun _ => ([1, 1, 1] : List ℚ)) [1] 2 0 0 5 = .ok ([1, 1], [1], [2]) ∧
    randrest (fun _ => ([1, 1] : List ℚ)) [1, 2] 1 0 0 5 = .ok ([1], [1], [1]) := by
  constructor <;> decide

/-- C2 (amended): `maxRepeat = 0` and `balanceTolerance = 0` are falsy and
deactivate their constraints, so the claimed configurations succeed on the
first draw instead of failing; an infeasible configuration whose constraint
is truly active does exhaust the budget: with `pool = [1]`, `n = 2`, active
`maxRepeat = 1` and `iterationBudget = 5`, every candidate drawn from the
singleton pool is `[1, 1, 1]` and fails the repeat check, so the call raises
the budget-exhaustion `StopIteration` — it neither loops forever (the loop is
bounded by the budget) nor returns a non-conforming sequence. -/
theorem C2_amended (cand : Cand) (hlen : ∀ k, (cand k).length = 3)
    (hmem : ∀ k, ∀ x ∈ cand k, x ∈ ([1] : List ℚ)) :
    randrest cand [1] 2 1 0 5 = .error .stopIteration := by
  have hcand : ∀ k, cand k = [1, 1, 1] := by
    intro k
    have h1 := List.eq_replicate_of_mem (l := cand k) (a := (1 : ℚ))
      fun b hb => by simpa using hmem k b hb
    rw [hlen k] at h1
    simpa using h1
  have hchk : ∀ m, rcheck (cand m) [1] 2 1 0 = true := by
    intro m
    rw [hcand m]
    decide
  rw [randrest_def, if_neg (by simp)]
  rcases randrestLoop_cases [1] 2 1 0 cand (5 - 1) 0 with ⟨j, -, -, h3, -, -⟩ | ⟨-, h2⟩
  · rw [hchk j] at h3
    cases h3
  · rw [h2]
    rfl

/-- Witness for C2 (amended) at the constant candidate stream. -/
theorem C2_amended_witness :
    randrest (fun _ => ([1, 1, 1] : List ℚ)) [1] 2 1 0 5 = .error .stopIteration :=
  C2_amended (fun _ => [1, 1, 1]) (fun _ => rfl) (fun _ x hx => by simpa using hx)

/-- C5: bounded termination — for any positive budget `maxit ≥ 1` the call
consults at most the first `maxit` candidate draws (two streams agreeing on
draws `0 .. maxit-1` give the same result), and it always terminates: it
either returns a value, or — only possible with an active constraint — every
one of the `maxit` candidates failed the check and it raises the
budget-exhaustion `StopIteration`. -/
theorem C5_bounded_termination (cand : Cand) (pool : List ℚ) (n rep : ℕ) (bal : ℚ)
    (maxit : ℕ) (hmax : 1 ≤ maxit) :
    (∀ cand' : Cand, (∀ k, k < maxit → cand' k = cand k) →
      randrest cand' pool n rep bal maxit = randrest cand pool n rep bal maxit) ∧
    ((∃ out, randrest cand pool n rep bal maxit = .ok out) ∨
      (randrest cand pool n rep bal maxit = .error .stopIteration ∧
        ¬(rep = 0 ∧ bal = 0) ∧ ∀ k, k < maxit → rcheck (cand k) pool n rep bal = true)) := by
  constructor
  · intro cand' hag
    rw [randrest_def, randrest_def]
    by_cases hc : rep = 0 ∧ bal = 0
    · rw [if_pos hc, if_pos hc, hag 0 (by omega)]
    · rw [if_neg hc, if_neg hc,
        randrestLoop_agree pool n rep bal cand cand' (maxit - 1) 0
          fun j h1 h2 => hag j (by omega)]
  · by_cases hc : rep = 0 ∧ bal = 0
    · exact Or.inl ⟨_, by rw [randrest_def, if_pos hc]; rfl⟩
    · rcases randrestLoop_cases pool n rep bal cand (maxit - 1) 0 with
        ⟨j, -, -, -, h4, -⟩ | ⟨h1, h2⟩
      · exact Or.inl ⟨_, by rw [randrest_def, if_neg hc, h4]; rfl⟩
      · refine Or.inr ⟨by rw [randrest_def, if_neg hc, h2]; rfl, hc,
          fun k hk => h1 k (by omega) (by omega)⟩

/-- Witness for C5 at a concrete call with budget `1`. -/
theorem C5_bounded_termination_witness :
    (∃ out, randrest (fun _ => ([1, 1] : List ℚ)) [1] 1 0 0 1 = .ok out) ∨
      (randrest (fun _ => ([1, 1] : List ℚ)) [1] 1 0 0 1 = .error .stopIteration ∧
        ¬((0 : ℕ) = 0 ∧ (0 : ℚ) = 0) ∧
        ∀ k, k < 1 → rcheck ([1, 1] : List ℚ) [1] 1 0 0 = true) :=
  (C5_bounded_termination (fun _ => [1, 1]) [1] 1 0 0 1 (by omega)).2

/-- C10: the dummy `(n+1)`-th element of each candidate never influences the
observable outcome — two candidate streams whose draws agree except possibly
in the last (dummy) element of each candidate receive the same
accept/reject verdict on every attempt and produce the same overall result
(same success/error, same returned sequence, same histogram). -/
theorem C10_dummy_irrelevant (cand cand' : Cand) (pool : List ℚ) (n rep : ℕ) (bal : ℚ)
    (maxit : ℕ) (hlen : ∀ k, (cand k).length = n + 1)
    (hlen' : ∀ k, (cand' k).length = n + 1)
    (htake : ∀ k, (cand k).take n = (cand' k).take n) :
    (∀ k, rcheck (cand k) pool n rep bal = rcheck (cand' k) pool n rep bal) ∧
    randrest cand pool n rep bal maxit = randrest cand' pool n rep bal maxit := by
  have hchk : ∀ k, rcheck (cand' k) pool n rep bal = rcheck (cand k) pool n rep bal :=
    fun k => (rcheck_congr_take (hlen k) (hlen' k) (htake k)).symm
  have hdl : ∀ k, (cand k).dropLast = (cand' k).dropLast :=
    fun k => dropLast_eq_of_take_eq (hlen k) (hlen' k) (htake k)
  refine ⟨fun k => (hchk k).symm, ?_⟩
  rw [randrest_def, randrest_def]
  by_cases hc : rep = 0 ∧ bal = 0
  · rw [if_pos hc, if_pos hc]
    simp [Except.map, hdl 0]
  · rw [if_neg hc, if_neg hc]
    rcases randrestLoop_rel pool n rep bal cand cand' hchk (maxit - 1) 0 with
      ⟨h1, h2⟩ | ⟨j, h1, h2⟩
    · rw [h1, h2]
    · rw [h1, h2]
      simp [Except.map, hdl j]

/-- Witness for C10: two constant streams differing only in the dummy last
element of each candidate. -/
theorem C10_dummy_irrelevant_witness :
    (∀ _k : ℕ, rcheck ([1, 2, 9] : List ℚ) [1, 2] 2 1 0 =
      rcheck ([1, 2, 7] : List ℚ) [1, 2] 2 1 0) ∧
    randrest (fun _ => ([1, 2, 9] : List ℚ)) [1, 2] 2 1 0 3 =
      randrest (fun _ => ([1, 2, 7] : List ℚ)) [1, 2] 2 1 0 3 :=
  C10_dummy_irrelevant (fun _ => [1, 2, 9]) (fun _ => [1, 2, 7]) [1, 2] 2 1 0 3
    (fun _ => rfl) (fun _ => rfl) (fun _ => rfl)

/-- C8: example scenario — any successful call with `pool = [1, 2, 3]`,
`n = 40`, `maxRepeat = 2`, `balanceTolerance = 1` (candidates drawn from the
pool with length 41) returns a 40-element sequence over `{1, 2, 3}` with no
window of three equal consecutive elements and each of `1`, `2`, `3`
occurring 13 or 14 times.  The count statement holds even though the balance
check skips absent values: two counts in `{13, 14}` cannot sum to 40, so all
three pool values are forced to be present. -/
theorem C8_example_scenario (cand : Cand)
    (hlen : ∀ k, (cand k).length = 40 + 1)
    (hmem : ∀ k, ∀ x ∈ cand k, x ∈ ([1, 2, 3] : List ℚ))
    (maxit : ℕ) (s vals : List ℚ) (counts : List ℕ)
    (h : randrest cand [1, 2, 3] 40 2 1 maxit = .ok (s, vals, counts)) :
    s.length = 40 ∧ (∀ x ∈ s, x ∈ ([1, 2, 3] : List ℚ)) ∧
    (¬∃ j, j + 2 < s.length ∧ ∀ i, i ≤ 2 → s.getD (j + i) 0 = s.getD j 0) ∧
    ∀ v ∈ ([1, 2, 3] : List ℚ), s.count v = 13 ∨ s.count v = 14 := by
  rcases randrest_ok_inv h with ⟨m, hs, -, -, -⟩
  have hlen40 : s.length = 40 := by
    rw [hs, List.length_dropLast, hlen m]
  have hsub : ∀ x ∈ s, x ∈ ([1, 2, 3] : List ℚ) := by
    intro x hx
    rw [hs] at hx
    exact hmem m x (List.dropLast_subset _ hx)
  have hpres := accepted_balance_present (by norm_num) h
  have hband : ∀ v ∈ s, 13 ≤ s.count v ∧ s.count v ≤ 14 := by
    intro v hv
    obtain ⟨h1, h2⟩ := hpres v hv
    rw [show ((List.length ([1, 2, 3] : List ℚ) : ℕ) : ℚ) = 3 from by norm_num] at h1 h2
    constructor
    · by_contra hc
      push_neg at hc
      have hcq : (s.count v : ℚ) ≤ 12 := by exact_mod_cast Nat.le_of_lt_succ (by omega)
      linarith
    · by_contra hc
      push_neg at hc
      have hcq : (15 : ℚ) ≤ (s.count v : ℚ) := by exact_mod_cast hc
      linarith
  have hsum : ∑ v ∈ s.toFinset, s.count v = 40 := by
    have h0 := Multiset.toFinset_sum_count_eq (↑s : Multiset ℚ)
    simp only [List.toFinset_coe, Multiset.coe_count, Multiset.coe_card] at h0
    rw [hlen40] at h0
    exact h0
  have hsubF : s.toFinset ⊆ ({1, 2, 3} : Finset ℚ) := by
    intro v hv
    have := hsub v (List.mem_toFinset.mp hv)
    simpa using this
  have hcard3 : ({1, 2, 3} : Finset ℚ).card = 3 := by decide
  have hcardEq : s.toFinset = ({1, 2, 3} : Finset ℚ) := by
    apply Finset.eq_of_subset_of_card_le hsubF
    by_contra hlt
    push_neg at hlt
    rw [hcard3] at hlt
    have hle : (∑ v ∈ s.toFinset, s.count v) ≤ s.toFinset.card * 14 := by
      have h14 := Finset.sum_le_card_nsmul s.toFinset (fun v => s.count v) 14
        fun v hv => (hband v (List.mem_toFinset.mp hv)).2
      simpa [smul_eq_mul, mul_comm] using h14
    omega
  refine ⟨hlen40, hsub, accepted_no_run (by decide) hlen h, ?_⟩
  intro v hv
  have hvF : v ∈ s.toFinset := by
    rw [hcardEq]
    simpa using hv
  have := hband v (List.mem_toFinset.mp hvF)
  omega

/-- The candidate used to witness C8: thirteen copies of `1, 2, 3`, a final
`1` (40 returned elements counting `1 ↦ 14`, `2 ↦ 13`, `3 ↦ 13`), and a dummy
last `1`. -/
def c8cand : List ℚ :=
  [1, 2, 3, 1, 2, 3, 1, 2, 3, 1, 2, 3, 1, 2, 3, 1, 2, 3, 1, 2, 3,
   1, 2, 3, 1, 2, 3, 1, 2, 3, 1, 2, 3, 1, 2, 3, 1, 2, 3, 1, 1]

/-- The 40 returned elements of the C8 witness run: `c8cand` without its
dummy last element. -/
def c8seq : List ℚ :=
  [1, 2, 3, 1, 2, 3, 1, 2, 3, 1, 2, 3, 1, 2, 3, 1, 2, 3, 1, 2, 3,
   1, 2, 3, 1, 2, 3, 1, 2, 3, 1, 2, 3, 1, 2, 3, 1, 2, 3, 1]

/-- Witness for C8 at a concrete accepting run. -/
theorem C8_example_scenario_witness :
    c8seq.length = 40 ∧ (∀ x ∈ c8seq, x ∈ ([1, 2, 3] : List ℚ)) ∧
    (¬∃ j, j + 2 < c8seq.length ∧ ∀ i, i ≤ 2 → c8seq.getD (j + i) 0 = c8seq.getD j 0) ∧
    ∀ v ∈ ([1, 2, 3] : List ℚ), c8seq.count v = 13 ∨ c8seq.count v = 14 := by
  have hchk : rcheck c8cand [1, 2, 3] 40 2 1 = false := by
    have h1 : repcheckAny c8cand 2 = false := by decide
    have h2 : balcheck c8cand 3 40 1 = false := by
      have hcounts : (npUnique c8cand.dropLast).2 = [14, 13, 13] := by decide
      simp only [balcheck, hcounts, List.any_cons, List.any_nil, Bool.or_eq_false_iff,
        decide_eq_false_iff_not, not_lt, gt_iff_lt]
      norm_num
    simp only [rcheck, h1]
    norm_num [h2]
  have hout : (c8cand.dropLast, (npUnique c8cand.dropLast).1, (npUnique c8cand.dropLast).2) =
      (c8seq, ([1, 2, 3] : List ℚ), ([14, 13, 13] : List ℕ)) := by
    decide
  have hrun : randrest (fun _ => c8cand) [1, 2, 3] 40 2 1 5 =
      .ok (c8seq, [1, 2, 3], [14, 13, 13]) := by
    rw [randrest_def, if_neg (by norm_num), randrestLoop_first_ok hchk]
    simp [Except.map, hout]
  have hmemc : ∀ x ∈ c8cand, x ∈ ([1, 2, 3] : List ℚ) := by decide
  exact C8_example_scenario (fun _ => c8cand) (fun _ => rfl) (fun _ => hmemc) 5
    c8seq [1, 2, 3] [14, 13, 13] hrun
